import Mathlib

/-
  Verification development for the trace-event library (chrome-trace-event).
  The repository holds two variants of the Tracer:
    * the current TypeScript variant (referred to below as the TS variant);
    * the legacy JavaScript variant lib/trace-event.js (the legacy variant).
  Both are embedded shallowly below.  JavaScript objects are modelled as
  association lists in insertion order; JavaScript numbers are modelled as
  integers (all numbers produced by the library itself are integers:
  microsecond timestamps and process ids).
-/

namespace TraceEvent

/-- Model of a JavaScript/JSON value.  Numbers are modelled as integers. -/
inductive JVal where
  | null
  | bool (b : Bool)
  | num (n : Int)
  | str (s : String)
  | arr (elts : List JVal)
  | obj (kvs : List (String × JVal))

/-- A JavaScript object in insertion order: the model of an event record and
of a Tracer FieldSet. -/
abbrev Fields := List (String × JVal)

/-- JavaScript truthiness of a value (empty arrays and objects are truthy). -/
def truthy : JVal → Bool
  | .null => false
  | .bool b => b
  | .num n => n != 0
  | .str s => s != ""
  | .arr _ => true
  | .obj _ => true

/-- JavaScript typeof, restricted to the values of the model.  Note that
typeof null is the string object, as in JavaScript. -/
def typeof : JVal → String
  | .null => "object"
  | .bool _ => "boolean"
  | .num _ => "number"
  | .str _ => "string"
  | .arr _ => "object"
  | .obj _ => "object"

/-- Property read on an object modelled as an association list: the first
binding of the key wins (JavaScript objects never hold a duplicate key). -/
def objGet : Fields → String → Option JVal
  | [], _ => none
  | (k, v) :: rest, key => if k = key then some v else objGet rest key

/-- Property write: an existing key keeps its position and gets the new
value, a fresh key is appended, as JavaScript assignment does. -/
def objSet : Fields → String → JVal → Fields
  | [], key, v => [(key, v)]
  | (k, w) :: rest, key, v =>
      if k = key then (k, v) :: rest else (k, w) :: objSet rest key v

/-- Object.assign target src: every key of src is written into target in
order. -/
def objAssign (target : Fields) (src : Fields) : Fields :=
  src.foldl (fun acc kv => objSet acc kv.1 kv.2) target

mutual
/-- Conversion of one array element to a string as Array.prototype.join does
it: null becomes the empty string, nested arrays are joined recursively. -/
def joinElemStr : JVal → String
  | .null => ""
  | .bool b => if b then "true" else "false"
  | .num n => toString n
  | .str s => s
  | .arr xs => joinList xs
  | .obj _ => "[object Object]"

/-- Array.prototype.join with separator a comma, on a list of values. -/
def joinList : List JVal → String
  | [] => ""
  | [x] => joinElemStr x
  | x :: y :: rest => joinElemStr x ++ "," ++ joinList (y :: rest)
end

/-- The call fields.cat.join of both variants: defined only when the value
is an array; on any other value JavaScript throws a TypeError because only
arrays have a join method. -/
def catJoin : JVal → Except String String
  | .arr xs => .ok (joinList xs)
  | _ => .error "TypeError: fields.cat.join is not a function"

/-- Left brace character (written by code point to keep braces out of
string literals). -/
def lbrace : Char := Char.ofNat 123

/-- Right brace character. -/
def rbrace : Char := Char.ofNat 125

/-- Escape of one character inside a JSON string, as JSON.stringify does. -/
def escChar (c : Char) : String :=
  if c = '"' then "\\\""
  else if c = '\\' then "\\\\"
  else if c = Char.ofNat 8 then "\\b"
  else if c = Char.ofNat 9 then "\\t"
  else if c = Char.ofNat 10 then "\\n"
  else if c = Char.ofNat 12 then "\\f"
  else if c = Char.ofNat 13 then "\\r"
  else if c.toNat < 32 then
    let lo := c.toNat % 16
    let hi := c.toNat / 16
    let hexDig := fun (n : Nat) =>
      String.singleton (Char.ofNat (if n < 10 then 48 + n else 87 + n))
    "\\u00" ++ hexDig hi ++ hexDig lo
  else String.singleton c

/-- JSON string literal for a Lean string, per JSON.stringify. -/
def quoteStr (s : String) : String :=
  "\"" ++ String.join (s.toList.map escChar) ++ "\""

mutual
/-- JSON.stringify on the value model. -/
def stringify : JVal → String
  | .null => "null"
  | .bool b => if b then "true" else "false"
  | .num n => toString n
  | .str s => quoteStr s
  | .arr xs => "[" ++ strArr xs ++ "]"
  | .obj kvs => String.singleton lbrace ++ strObj kvs ++ String.singleton rbrace

/-- Comma-separated serialization of array elements. -/
def strArr : List JVal → String
  | [] => ""
  | [x] => stringify x
  | x :: y :: rest => stringify x ++ "," ++ strArr (y :: rest)

/-- Comma-separated serialization of object members. -/
def strObj : List (String × JVal) → String
  | [] => ""
  | [kv] => quoteStr kv.1 ++ ":" ++ stringify kv.2
  | kv :: p :: rest => quoteStr kv.1 ++ ":" ++ stringify kv.2 ++ "," ++ strObj (p :: rest)
end

/-- Output of the clock/identity collaborator: one sample of evCommon. -/
structure Clk where
  ts : Int
  pid : Int
  tid : Int

/-- The record evCommon() returns: ts, pid, tid stamped from the
collaborator (tid degenerates to pid in node, but the model keeps it
separate since only presence matters to the claims). -/
def evCommon (c : Clk) : Fields :=
  [("ts", .num c.ts), ("pid", .num c.pid), ("tid", .num c.tid)]

/-- The fields argument of a phase method: absent (undefined or null), a
plain string, or an object. -/
inductive FArg where
  | noArg
  | name (s : String)
  | fields (kvs : Fields)

/-- JavaScript truthiness of the fields argument: undefined and null are
falsy, the empty string is falsy, every object is truthy. -/
def FArg.truthyArg : FArg → Bool
  | .noArg => false
  | .name s => s != ""
  | .fields _ => true

/-- The per-key loop of the TS variant mkEventFunc on an object argument:
for each key, the key cat gets fields.cat.join applied (a fresh lookup in
the full argument object, which is the third parameter), every other key
is copied verbatim.  The call fails like JavaScript when the cat value is
not an array. -/
def applyFields : Fields → Fields → Fields → Except String Fields
  | ev, [], _ => .ok ev
  | ev, (k, v) :: rest, orig =>
      if k = "cat" then
        match catJoin ((objGet orig "cat").getD .null) with
        | .error e => .error e
        | .ok s => applyFields (objSet ev "cat" (.str s)) rest orig
      else applyFields (objSet ev k v) rest orig

/-- Event construction of the TS variant mkEventFunc: stamp ts, pid, tid
from the clock collaborator, set ph, then interpret the fields argument
(string argument sets name only; object argument is copied key by key with
join applied to cat).  The Tracer FieldSet is not consulted here: the TS
variant never copies this.fields into the event. -/
def buildEv (ph : String) (arg : FArg) (c : Clk) : Except String Fields :=
  let ev := objSet (evCommon c) "ph" (.str ph)
  if arg.truthyArg then
    match arg with
    | .noArg => .ok ev
    | .name s => .ok (objSet ev "name" (.str s))
    | .fields kvs => applyFields ev kvs kvs
  else .ok ev

/-- FieldSet computation of the Tracer constructor (identical in both
variants): copy the parent FieldSet if a parent exists, overlay the
supplied fields, then apply the fallbacks: a missing or falsy cat becomes
the string default, an array cat is joined with a comma, a missing or
falsy args becomes an empty object. -/
def mkFields (parentFields : Option Fields) (optsFields : Option Fields) : Fields :=
  let f := match parentFields with
    | some pf => objAssign [] pf
    | none => []
  let f := match optsFields with
    | some ofs => objAssign f ofs
    | none => f
  let f := match objGet f "cat" with
    | none => objSet f "cat" (.str "default")
    | some v =>
        if truthy v then
          match v with
          | .arr xs => objSet f "cat" (.str (joinList xs))
          | _ => f
        else objSet f "cat" (.str "default")
  match objGet f "args" with
  | none => objSet f "args" (.obj [])
  | some v => if truthy v then f else objSet f "args" (.obj [])

/-- State of one Tracer object.  The field target is the index of the
tracer whose push method this tracer uses: the constructor binds the push
of the parent (itself already bound to the root), so for a root it is the
tracer itself and for a child it is the parent target.  frags is the list
of string fragments this tracer has pushed to its readable stream, objSink
the list of event objects pushed in object mode, events the noStream
buffer. -/
structure TracerD where
  fields : Fields
  noStream : Bool
  objectMode : Bool
  parent : Option Nat
  target : Nat
  firstPush : Bool
  events : List Fields
  frags : List String
  objSink : List Fields

/-- A system of tracers: index into the list is the identity of the
tracer. -/
abbrev Sys := List TracerD

/-- Replacement of the tracer at one index by a function of its state. -/
def updTracer : Sys → Nat → (TracerD → TracerD) → Sys
  | [], _, _ => []
  | d :: rest, 0, f => f d :: rest
  | d :: rest, Nat.succ i, f => d :: updTracer rest i f

/-- Construction of a root Tracer (TS variant): no parent, FieldSet from
the supplied fields alone, own framing state, target is itself. -/
def newRoot (sys : Sys) (optsFields : Option Fields) (objectMode noStream : Bool) : Sys :=
  sys ++ [{ fields := mkFields none optsFields
            noStream := noStream
            objectMode := objectMode
            parent := none
            target := sys.length
            firstPush := false
            events := []
            frags := []
            objSink := [] }]

/-- The child method: new Tracer with parent this and the given fields.
The options object passed by child holds neither noStream nor objectMode,
so both default to false, and the bound push of the parent makes the
target of the child the target of the parent. -/
def childOf (sys : Sys) (p : Nat) (childFields : Fields) : Sys :=
  match sys.get? p with
  | none => sys
  | some pd =>
      sys ++ [{ fields := mkFields (some pd.fields) (some childFields)
                noStream := false
                objectMode := false
                parent := some p
                target := pd.target
                firstPush := false
                events := []
                frags := []
                objSink := [] }]

/-- The TS variant pushString on the tracer that owns the stream: the
first push emits an opening bracket fragment then the serialized event;
every later push emits one fragment holding a comma, a newline and the
serialized event. -/
def pushStringUpd (td : TracerD) (ev : Fields) : TracerD :=
  if td.firstPush then
    { td with frags := td.frags ++ [",\n" ++ stringify (.obj ev)] }
  else
    { td with firstPush := true
              frags := td.frags ++ ["[", stringify (.obj ev)] }

/-- Delivery of one event to the sink of the tracer at index r: in object
mode the event object itself is pushed, otherwise pushString runs. -/
def pushTo (sys : Sys) (r : Nat) (ev : Fields) : Sys :=
  match sys.get? r with
  | none => sys
  | some rd =>
      if rd.objectMode then
        updTracer sys r (fun td => { td with objSink := td.objSink ++ [ev] })
      else updTracer sys r (fun td => pushStringUpd td ev)

/-- One phase-method call on the tracer at index t (TS variant): build the
event, then either deliver it through the bound push of the target (when
not buffering) or append it to the own events buffer (noStream). -/
def emit (sys : Sys) (t : Nat) (ph : String) (arg : FArg) (c : Clk) :
    Except String Sys :=
  match sys.get? t with
  | none => .error "no such tracer"
  | some td =>
      match buildEv ph arg c with
      | .error e => .error e
      | .ok ev =>
          if td.noStream then
            .ok (updTracer sys t (fun d => { d with events := d.events ++ [ev] }))
          else .ok (pushTo sys td.target ev)

/-- The public flush of the TS variant: only in noStream mode, push every
buffered event through the bound push, then run the private flush, which
pushes a closing bracket to the own stream unless in object mode.  The
buffer is not cleared and no flag is flipped. -/
def flushT (sys : Sys) (t : Nat) : Sys :=
  match sys.get? t with
  | none => sys
  | some td =>
      if td.noStream then
        let sys1 := td.events.foldl (fun s ev => pushTo s td.target ev) sys
        if td.objectMode then sys1
        else updTracer sys1 t (fun d => { d with frags := d.frags ++ ["]"] })
      else sys

/-- Event construction of the legacy variant mkEventFunc (trace-event.js):
unlike the TS variant it first copies the whole FieldSet of the tracer
into the event, then overlays the argument, then re-joins cat when the
argument carried a truthy cat. -/
def legacyBuildEv (selfFields : Fields) (ph : String) (arg : FArg) (c : Clk) :
    Except String Fields :=
  let ev := objSet (evCommon c) "ph" (.str ph)
  let ev := objAssign ev selfFields
  if arg.truthyArg then
    match arg with
    | .noArg => .ok ev
    | .name s => .ok (objSet ev "name" (.str s))
    | .fields kvs =>
        let ev := objAssign ev kvs
        match objGet kvs "cat" with
        | some cv =>
            if truthy cv then
              match catJoin cv with
              | .error e => .error e
              | .ok s => .ok (objSet ev "cat" (.str s))
            else .ok ev
        | none => .ok ev
  else .ok ev

/-- Whitespace characters of JSON. -/
def isWs (c : Char) : Bool :=
  c = ' ' || c = Char.ofNat 9 || c = Char.ofNat 10 || c = Char.ofNat 13

/-- Drop leading JSON whitespace. -/
def skipWs : List Char → List Char
  | [] => []
  | c :: rest => if isWs c then skipWs rest else c :: rest

/-- Hexadecimal digit value. -/
def hexVal (c : Char) : Option Nat :=
  if 48 ≤ c.toNat ∧ c.toNat ≤ 57 then some (c.toNat - 48)
  else if 97 ≤ c.toNat ∧ c.toNat ≤ 102 then some (c.toNat - 87)
  else if 65 ≤ c.toNat ∧ c.toNat ≤ 70 then some (c.toNat - 55)
  else none

/-- Body of a JSON string literal after the opening quote, with escapes. -/
def parseStrBody : List Char → Option (String × List Char)
  | [] => none
  | '"' :: rest => some ("", rest)
  | '\\' :: 'u' :: h1 :: h2 :: h3 :: h4 :: rest =>
      match hexVal h1, hexVal h2, hexVal h3, hexVal h4 with
      | some a, some b, some c, some d =>
          (parseStrBody rest).map (fun p =>
            (String.singleton (Char.ofNat (((a * 16 + b) * 16 + c) * 16 + d)) ++ p.1, p.2))
      | _, _, _, _ => none
  | '\\' :: e :: rest =>
      let dec : Option Char :=
        if e = '"' then some '"'
        else if e = '\\' then some '\\'
        else if e = '/' then some '/'
        else if e = 'b' then some (Char.ofNat 8)
        else if e = 'f' then some (Char.ofNat 12)
        else if e = 'n' then some (Char.ofNat 10)
        else if e = 'r' then some (Char.ofNat 13)
        else if e = 't' then some (Char.ofNat 9)
        else none
      match dec with
      | some c => (parseStrBody rest).map (fun p => (String.singleton c ++ p.1, p.2))
      | none => none
  | c :: rest =>
      if c.toNat < 32 then none
      else (parseStrBody rest).map (fun p => (String.singleton c ++ p.1, p.2))

/-- Longest digit run at the front of the input. -/
def digitSpan : List Char → (List Nat × List Char)
  | [] => ([], [])
  | c :: rest =>
      if 48 ≤ c.toNat ∧ c.toNat ≤ 57 then
        let p := digitSpan rest
        ((c.toNat - 48) :: p.1, p.2)
      else ([], c :: rest)

/-- Integer JSON number (the model has no floating point, so fraction and
exponent forms are not produced and not accepted). -/
def parseNum (cs : List Char) : Option (Int × List Char) :=
  match cs with
  | '-' :: rest =>
      match digitSpan rest with
      | ([], _) => none
      | (ds, rest2) => some (-(Int.ofNat (ds.foldl (fun a d => a * 10 + d) 0)), rest2)
  | _ =>
      match digitSpan cs with
      | ([], _) => none
      | (ds, rest2) => some (Int.ofNat (ds.foldl (fun a d => a * 10 + d) 0), rest2)

mutual
/-- Recursive-descent JSON value reader with fuel (the fuel only bounds
nesting depth; jsonParse supplies more fuel than the input length). -/
def parseVal : Nat → List Char → Option (JVal × List Char)
  | 0, _ => none
  | Nat.succ fu, cs =>
      match skipWs cs with
      | [] => none
      | c :: rest =>
          if c = '"' then (parseStrBody rest).map (fun p => (.str p.1, p.2))
          else if c = '[' then
            match skipWs rest with
            | ']' :: rest2 => some (.arr [], rest2)
            | _ => (parseElems fu rest).map (fun p => (.arr p.1, p.2))
          else if c = lbrace then
            match skipWs rest with
            | [] => none
            | c2 :: rest2 =>
                if c2 = rbrace then some (.obj [], rest2)
                else (parseMembers fu rest).map (fun p => (.obj p.1, p.2))
          else if c = 'n' then
            match rest with
            | 'u' :: 'l' :: 'l' :: rest2 => some (.null, rest2)
            | _ => none
          else if c = 't' then
            match rest with
            | 'r' :: 'u' :: 'e' :: rest2 => some (.bool true, rest2)
            | _ => none
          else if c = 'f' then
            match rest with
            | 'a' :: 'l' :: 's' :: 'e' :: rest2 => some (.bool false, rest2)
            | _ => none
          else (parseNum (c :: rest)).map (fun p => (.num p.1, p.2))

/-- Comma-separated array elements up to the closing bracket. -/
def parseElems : Nat → List Char → Option (List JVal × List Char)
  | 0, _ => none
  | Nat.succ fu, cs =>
      match parseVal fu cs with
      | none => none
      | some (v, rest) =>
          match skipWs rest with
          | ',' :: rest2 => (parseElems fu rest2).map (fun p => (v :: p.1, p.2))
          | ']' :: rest2 => some ([v], rest2)
          | _ => none

/-- Comma-separated object members up to the closing brace. -/
def parseMembers : Nat → List Char → Option (List (String × JVal) × List Char)
  | 0, _ => none
  | Nat.succ fu, cs =>
      match skipWs cs with
      | '"' :: rest =>
          match parseStrBody rest with
          | none => none
          | some (key, rest2) =>
              match skipWs rest2 with
              | ':' :: rest3 =>
                  match parseVal fu rest3 with
                  | none => none
                  | some (v, rest4) =>
                      match skipWs rest4 with
                      | ',' :: rest5 =>
                          (parseMembers fu rest5).map (fun p => ((key, v) :: p.1, p.2))
                      | c :: rest5 =>
                          if c = rbrace then some ([(key, v)], rest5) else none
                      | [] => none
              | _ => none
      | _ => none
end

/-- Parse of a whole string as one JSON value: trailing content other than
whitespace is rejected.  This definition follows the words of the spec
(syntactically valid JSON, parseable): it is the spec-side reading used to
compare the emitted fragments against. -/
def jsonParse (s : String) : Option JVal :=
  match parseVal (s.length + 1) s.toList with
  | some (v, rest) => if (skipWs rest).isEmpty then some v else none
  | none => none

/-- One phase-method call: phase code, fields argument, clock sample. -/
structure Call where
  ph : String
  arg : FArg
  c : Clk

/-- A sequence of phase-method calls on the tracer at index t. -/
def runCalls (sys : Sys) (t : Nat) : List Call → Except String Sys
  | [] => .ok sys
  | call :: rest =>
      match emit sys t call.ph call.arg call.c with
      | .error e => .error e
      | .ok sys2 => runCalls sys2 t rest

/-- The sequence of events the calls construct, in construction order. -/
def callEvs : List Call → Except String (List Fields)
  | [] => .ok []
  | call :: rest =>
      match buildEv call.ph call.arg call.c with
      | .error e => .error e
      | .ok ev =>
          match callEvs rest with
          | .error e => .error e
          | .ok evs => .ok (ev :: evs)

/-- The fragments pushString produces for a sequence of events, starting
from a given firstPush flag. -/
def fragsFor : Bool → List Fields → List String
  | _, [] => []
  | fp, ev :: rest =>
      (if fp then [",\n" ++ stringify (.obj ev)] else ["[", stringify (.obj ev)]) ++
        fragsFor true rest

/-- Concatenation of a fragment list (the byte stream a consumer sees). -/
def concatAll : List String → String
  | [] => ""
  | s :: rest => s ++ concatAll rest

/-- Spec-side description of the text-mode stream for a sequence of
events: opening bracket, first event, then each further event preceded by
a comma and newline.  Note the absence of a closing bracket. -/
def streamConcat (evs : List Fields) : String :=
  match evs with
  | [] => ""
  | e :: rest =>
      "[" ++ stringify (.obj e) ++
        concatAll (rest.map (fun e2 => ",\n" ++ stringify (.obj e2)))

/-- Property read on an arbitrary value, as the constructor does on the
options object: reading a property of null throws a TypeError, objects
look the key up, arrays and primitives yield undefined for these keys. -/
def propGet : JVal → String → Except String (Option JVal)
  | .null, _ => .error "TypeError: cannot read properties of null"
  | .obj kvs, k => .ok (objGet kvs k)
  | _, _ => .ok none

/-- Validation prelude of the TS constructor, on the options argument as
JavaScript receives it (none models the call with no argument, where the
default parameter supplies an empty object).  Mirrors the four checks in
source order, with the error messages of the source, including the
objectsMode typo. -/
def tracerCtorChecks (optsArg : Option JVal) : Except String Unit :=
  let opts := optsArg.getD (.obj [])
  if typeof opts != "object" then
    .error "Invalid options passed (must be an object)"
  else
    match propGet opts "parent" with
    | .error e => .error e
    | .ok p =>
        if (match p with
            | none => false
            | some .null => false
            | some pv => typeof pv != "object") then
          .error "Invalid option (parent) passed (must be an object)"
        else
          match propGet opts "fields" with
          | .error e => .error e
          | .ok fv =>
              if (match fv with
                  | none => false
                  | some .null => false
                  | some v => typeof v != "object") then
                .error "Invalid option (fields) passed (must be an object)"
              else
                match propGet opts "objectMode" with
                | .error e => .error e
                | .ok mv =>
                    if (match mv with
                        | none => false
                        | some .null => false
                        | some (.bool _) => false
                        | some _ => true) then
                      .error "Invalid option (objectsMode) passed (must be a boolean)"
                    else .ok ()

/-- A heap of FieldSet objects: JavaScript object identity made explicit,
so that aliasing between the FieldSet of a parent and of a child is
expressible.  mem maps an address to the stored object, next is the first
unused address. -/
structure Store where
  mem : Nat → Fields
  next : Nat

/-- Allocation of a fresh FieldSet object. -/
def Store.alloc (st : Store) (f : Fields) : Store × Nat :=
  ({ mem := fun i => if i = st.next then f else st.mem i, next := st.next + 1 },
   st.next)

/-- The FieldSet part of child construction on the heap: Object.assign
with an empty target allocates a fresh object holding the merged content,
so the child address is new. -/
def childAlloc (st : Store) (p : Nat) (childFields : Fields) : Store × Nat :=
  st.alloc (mkFields (some (st.mem p)) (some childFields))

/-- In-place mutation of one entry of the FieldSet stored at an address. -/
def mutateField (st : Store) (r : Nat) (k : String) (v : JVal) : Store :=
  { st with mem := fun i => if i = r then objSet (st.mem i) k v else st.mem i }

/-- Event built by the legacy variant for the tracer whose FieldSet lives
at address r of the heap. -/
def legacyEmitH (st : Store) (r : Nat) (ph : String) (arg : FArg) (c : Clk) :
    Except String Fields :=
  legacyBuildEv (st.mem r) ph arg c

/-- Root ancestor along the parent chain, with fuel (the chain is strictly
decreasing in every reachable system, so fuel equal to the system size
suffices). -/
def rootAncF : Nat → Sys → Nat → Nat
  | 0, _, t => t
  | Nat.succ fu, sys, t =>
      match sys.get? t with
      | none => t
      | some td =>
          match td.parent with
          | none => t
          | some p => rootAncF fu sys p

/-- Root ancestor of a tracer. -/
def rootAnc (sys : Sys) (t : Nat) : Nat := rootAncF sys.length sys t

/-- Systems reachable through the public operations of the library:
creating root tracers, deriving children, emitting events, flushing. -/
inductive Reachable : Sys → Prop where
  | nil : Reachable []
  | root (sys : Sys) (optsFields : Option Fields) (om ns : Bool) :
      Reachable sys → Reachable (newRoot sys optsFields om ns)
  | child (sys : Sys) (p : Nat) (f : Fields) :
      Reachable sys → Reachable (childOf sys p f)
  | emitStep (sys : Sys) (t : Nat) (ph : String) (arg : FArg) (c : Clk)
      (sys2 : Sys) : Reachable sys → emit sys t ph arg c = .ok sys2 →
      Reachable sys2
  | flushStep (sys : Sys) (t : Nat) :
      Reachable sys → Reachable (flushT sys t)

/-- Spec-side description of joining a category list with a comma,
preserving input order. -/
def commaSep : List String → String
  | [] => ""
  | [x] => x
  | x :: y :: rest => x ++ "," ++ commaSep (y :: rest)

/-- Structural invariant of a tracer system: a root is its own target,
and a child points to an earlier tracer and shares its target, so the
target of every tracer is the target its root ancestor chose for itself. -/
def SysInv (sys : Sys) : Prop :=
  ∀ t td, sys.get? t = some td →
    match td.parent with
    | none => td.target = t
    | some p => p < t ∧ ∃ pd, sys.get? p = some pd ∧ td.target = pd.target

/- ---------------------------------------------------------------- -/
/- Helper lemmas                                                    -/
/- ---------------------------------------------------------------- -/

theorem get?_updTracer (sys : Sys) (i j : Nat) (f : TracerD → TracerD) :
    (updTracer sys i f).get? j = if j = i then (sys.get? j).map f else sys.get? j := by
  induction sys generalizing i j with
  | nil => simp [updTracer]
  | cons d rest ih =>
      cases i with
      | zero =>
          cases j with
          | zero => simp [updTracer]
          | succ j2 => simp [updTracer]
      | succ i2 =>
          cases j with
          | zero => simp [updTracer]
          | succ j2 => simpa [updTracer] using ih i2 j2

theorem objGet_objSet_same (f : Fields) (k : String) (v : JVal) :
    objGet (objSet f k v) k = some v := by
  induction f with
  | nil => simp [objSet, objGet]
  | cons kv rest ih =>
      by_cases h : kv.1 = k
      · simp [objSet, objGet, h]
      · cases kv with
        | mk k1 v1 => simp_all [objSet, objGet]

theorem objGet_objSet_diff (f : Fields) (k k2 : String) (v : JVal)
    (h : k2 ≠ k) : objGet (objSet f k2 v) k = objGet f k := by
  induction f with
  | nil => simp [objSet, objGet, h]
  | cons kv rest ih =>
      cases kv with
      | mk k1 v1 =>
          by_cases h1 : k1 = k2
          · simp [objSet, objGet, h1, h, Ne.symm h]
          · by_cases h2 : k1 = k <;> simp [objSet, objGet, h1, h2, ih, Ne.symm h]

theorem joinList_strs (xs : List String) :
    joinList (xs.map JVal.str) = commaSep xs := by
  induction xs with
  | nil => rfl
  | cons x rest ih =>
      cases rest with
      | nil => rfl
      | cons y r2 =>
          have h2 := ih
          simp only [List.map_cons] at h2
          simp [joinList, joinElemStr, commaSep, h2]

/- ---------------------------------------------------------------- -/
/- Claim theorems                                                   -/
/- ---------------------------------------------------------------- -/

/-- C2: evaluation of the TS variant at a failing input.  The constructor
FieldSet does carry the mandatory cat and args fallbacks, but the event a
phase-method call emits is built from ts, pid, tid, ph and the call-site
argument only, so an instantEvent call with no argument produces an event
with no cat and no args key, contradicting the claim that every emitted
event contains non-null values for all six keys. -/
theorem claim2_event_lacks_cat_args :
    objGet (mkFields none none) "cat" = some (.str "default") ∧
    objGet (mkFields none none) "args" = some (.obj []) ∧
    buildEv "I" .noArg ⟨0, 1, 1⟩ =
      .ok [("ts", .num 0), ("pid", .num 1), ("tid", .num 1), ("ph", .str "I")] ∧
    objGet [("ts", JVal.num 0), ("pid", .num 1), ("tid", .num 1), ("ph", .str "I")]
      "cat" = none ∧
    objGet [("ts", JVal.num 0), ("pid", .num 1), ("tid", .num 1), ("ph", .str "I")]
      "args" = none :=
  ⟨rfl, rfl, rfl, rfl, rfl⟩

/-- C3: evaluation of the TS variant at the test input of the claim.  The
FieldSet merge of child construction is correct (the child FieldSet holds
cat b, x 1, y 2), but the event the child emits never receives the
FieldSet: it lacks cat, x and y, contradicting the claim. -/
theorem claim3_child_event_lacks_inherited_fields :
    ((childOf (newRoot [] (some [("cat", .arr [.str "a"]), ("x", .num 1)]) false false)
        0 [("cat", .arr [.str "b"]), ("y", .num 2)]).get? 1).map TracerD.fields =
      some [("cat", .str "b"), ("x", .num 1), ("args", .obj []), ("y", .num 2)] ∧
    buildEv "I" (.fields []) ⟨0, 1, 1⟩ =
      .ok [("ts", .num 0), ("pid", .num 1), ("tid", .num 1), ("ph", .str "I")] ∧
    emit (childOf (newRoot [] (some [("cat", .arr [.str "a"]), ("x", .num 1)]) false false)
        0 [("cat", .arr [.str "b"]), ("y", .num 2)]) 1 "I" (.fields []) ⟨0, 1, 1⟩ =
      .ok (pushTo (childOf (newRoot []
          (some [("cat", .arr [.str "a"]), ("x", .num 1)]) false false)
          0 [("cat", .arr [.str "b"]), ("y", .num 2)]) 0
        [("ts", .num 0), ("pid", .num 1), ("tid", .num 1), ("ph", .str "I")]) ∧
    objGet [("ts", JVal.num 0), ("pid", .num 1), ("tid", .num 1), ("ph", .str "I")]
      "cat" = none ∧
    objGet [("ts", JVal.num 0), ("pid", .num 1), ("tid", .num 1), ("ph", .str "I")]
      "x" = none ∧
    objGet [("ts", JVal.num 0), ("pid", .num 1), ("tid", .num 1), ("ph", .str "I")]
      "y" = none :=
  ⟨rfl, rfl, rfl, rfl, rfl, rfl⟩

/-- C8: evaluation of the TS variant at a failing input.  A string
argument does set name and nothing else from the argument, but the
inherited defaults of the FieldSet (here x, and the mandatory cat and
args) do not appear in the event, contradicting the part of the claim
that says every other field keeps the FieldSet value. -/
theorem claim8_string_arg_event_lacks_fieldset :
    mkFields none (some [("x", JVal.num 7)]) =
      [("x", .num 7), ("cat", .str "default"), ("args", .obj [])] ∧
    buildEv "B" (.name "nm") ⟨5, 2, 2⟩ =
      .ok [("ts", .num 5), ("pid", .num 2), ("tid", .num 2), ("ph", .str "B"),
           ("name", .str "nm")] ∧
    objGet [("ts", JVal.num 5), ("pid", .num 2), ("tid", .num 2), ("ph", .str "B"),
      ("name", .str "nm")] "x" = none ∧
    objGet [("ts", JVal.num 5), ("pid", .num 2), ("tid", .num 2), ("ph", .str "B"),
      ("name", .str "nm")] "cat" = none ∧
    objGet [("ts", JVal.num 5), ("pid", .num 2), ("tid", .num 2), ("ph", .str "B"),
      ("name", .str "nm")] "args" = none :=
  ⟨rfl, rfl, rfl, rfl, rfl⟩

/-- C4 counterexample: a cat supplied as a string at a phase-method call
is not passed through unchanged; the call fails with a TypeError because
join is applied to it unconditionally. -/
theorem claim4_string_cat_throws :
    buildEv "I" (.fields [("cat", JVal.str "x")]) ⟨0, 1, 1⟩ =
      .error "TypeError: fields.cat.join is not a function" := rfl

/-- C4 amended: a cat supplied as a list of strings is joined with a comma
preserving input order, into the FieldSet at construction and at child
creation, and into the emitted event at a phase-method call (where it is
therefore a string); a cat supplied as a string at a phase-method call
raises a TypeError instead of passing through. -/
theorem claim4_cat_normalization :
    (∀ xs : List String,
       objGet (mkFields none (some [("cat", .arr (xs.map .str))])) "cat" =
         some (.str (commaSep xs))) ∧
    (∀ (xs : List String) (pf : Fields),
       objGet (mkFields (some pf) (some [("cat", .arr (xs.map .str))])) "cat" =
         some (.str (commaSep xs))) ∧
    (∀ (xs : List String) (ph : String) (c : Clk) (ev : Fields),
       buildEv ph (.fields [("cat", .arr (xs.map JVal.str))]) c = .ok ev →
       objGet ev "cat" = some (.str (commaSep xs))) ∧
    (∀ (s : String) (ph : String) (c : Clk),
       buildEv ph (.fields [("cat", JVal.str s)]) c =
         .error "TypeError: fields.cat.join is not a function") := by
  refine ⟨?_, ?_, ?_, ?_⟩
  · intro xs
    simp [mkFields, objAssign, objSet, objGet, truthy, joinList_strs]
  · intro xs pf
    simp only [mkFields, objAssign, List.foldl, objGet_objSet_same, truthy,
      if_true, reduceIte]
    split
    · rw [objGet_objSet_diff _ _ _ _ (by decide), objGet_objSet_same, joinList_strs]
    · split
      · rw [objGet_objSet_same, joinList_strs]
      · rw [objGet_objSet_diff _ _ _ _ (by decide), objGet_objSet_same, joinList_strs]
  · intro xs ph c ev h
    simp only [buildEv, FArg.truthyArg, applyFields, objGet, catJoin,
      if_true, reduceIte, Option.getD] at h
    cases h
    rw [objGet_objSet_same, joinList_strs]
  · intro s ph c
    rfl

/-- C4 amended witness at a concrete input for the hypothesis of the
third conjunct. -/
theorem claim4_cat_normalization_witness :
    buildEv "X" (.fields [("cat", .arr [JVal.str "a", JVal.str "b"])]) ⟨3, 4, 4⟩ =
      .ok [("ts", .num 3), ("pid", .num 4), ("tid", .num 4), ("ph", .str "X"),
           ("cat", .str "a,b")] ∧
    objGet [("ts", JVal.num 3), ("pid", .num 4), ("tid", .num 4), ("ph", .str "X"),
      ("cat", .str "a,b")] "cat" = some (.str (commaSep ["a", "b"])) :=
  ⟨rfl, claim4_cat_normalization.2.2.1 ["a", "b"] "X" ⟨3, 4, 4⟩ _ rfl⟩

/-- C5 counterexample: on a fresh buffered text-mode root, flush with zero
prior events pushes a lone closing bracket, which is not parseable as JSON
at all (so not a valid empty-array encoding), and a second flush is not a
no-op: it pushes a second closing bracket. -/
theorem claim5_flush_lone_bracket :
    ((flushT (newRoot [] none false true) 0).get? 0).map TracerD.frags =
      some ["]"] ∧
    concatAll ["]"] = "]" ∧
    jsonParse "]" = none ∧
    ((flushT (flushT (newRoot [] none false true) 0) 0).get? 0).map TracerD.frags =
      some ["]", "]"] :=
  ⟨rfl, rfl, rfl, rfl⟩

/-- C1 counterexample: in text streamed mode (noStream false, objectMode
false), one phase-method call followed by the public flush (a no-op in
this mode) leaves the sink holding an opening bracket and one serialized
event and no closing bracket; the concatenation of the fragments is not
parseable as JSON, contradicting the claim. -/
theorem claim1_stream_not_closed :
    (match runCalls (newRoot [] none false false) 0 [⟨"I", FArg.name "x", ⟨0, 1, 1⟩⟩] with
      | .ok sys2 =>
          flushT sys2 0 = sys2 ∧
          (sys2.get? 0).map (fun d => concatAll d.frags) =
            some "[\x7b\"ts\":0,\"pid\":1,\"tid\":1,\"ph\":\"I\",\"name\":\"x\"\x7d"
      | .error _ => False) ∧
    jsonParse "[\x7b\"ts\":0,\"pid\":1,\"tid\":1,\"ph\":\"I\",\"name\":\"x\"\x7d" = none :=
  ⟨⟨rfl, rfl⟩, rfl⟩

/-- C7: the FieldSet of a child is an independent copy made at
child-creation time: the child address returned by the heap allocation of
Object.assign is distinct from the parent address, and after mutating any
entry of the parent FieldSet, every event the child subsequently emits
(through the legacy variant, which is the one that copies the FieldSet
into events) is unchanged. -/
theorem claim7_child_fields_independent (st : Store) (p : Nat) (cf : Fields)
    (k : String) (v : JVal) (ph : String) (arg : FArg) (c : Clk)
    (hp : p < st.next) :
    (childAlloc st p cf).2 ≠ p ∧
    legacyEmitH (mutateField (childAlloc st p cf).1 p k v)
        (childAlloc st p cf).2 ph arg c =
      legacyEmitH (childAlloc st p cf).1 (childAlloc st p cf).2 ph arg c := by
  have hne : st.next ≠ p := by omega
  constructor
  · simpa [childAlloc, Store.alloc] using hne
  · simp [legacyEmitH, mutateField, childAlloc, Store.alloc, hne]

/-- C7 witness at a concrete heap with one parent FieldSet. -/
theorem claim7_child_fields_independent_witness :
    (0 : Nat) < ({ mem := fun _ => [], next := 1 } : Store).next ∧
    ((childAlloc { mem := fun _ => [], next := 1 } 0 [("y", JVal.num 2)]).2 ≠ 0 ∧
     legacyEmitH (mutateField
         (childAlloc { mem := fun _ => [], next := 1 } 0 [("y", JVal.num 2)]).1
         0 "x" (.num 9))
        (childAlloc { mem := fun _ => [], next := 1 } 0 [("y", JVal.num 2)]).2
        "B" .noArg ⟨0, 1, 1⟩ =
      legacyEmitH (childAlloc { mem := fun _ => [], next := 1 } 0 [("y", JVal.num 2)]).1
        (childAlloc { mem := fun _ => [], next := 1 } 0 [("y", JVal.num 2)]).2
        "B" .noArg ⟨0, 1, 1⟩) :=
  ⟨by decide,
   claim7_child_fields_independent { mem := fun _ => [], next := 1 } 0
     [("y", JVal.num 2)] "x" (.num 9) "B" .noArg ⟨0, 1, 1⟩ (by decide)⟩

theorem pushStringUpd_noStream (td : TracerD) (ev : Fields) :
    (pushStringUpd td ev).noStream = td.noStream := by
  by_cases h : td.firstPush <;> simp [pushStringUpd, h]

theorem pushStringUpd_objectMode (td : TracerD) (ev : Fields) :
    (pushStringUpd td ev).objectMode = td.objectMode := by
  by_cases h : td.firstPush <;> simp [pushStringUpd, h]

theorem pushStringUpd_target (td : TracerD) (ev : Fields) :
    (pushStringUpd td ev).target = td.target := by
  by_cases h : td.firstPush <;> simp [pushStringUpd, h]

theorem runCalls_single_stream (calls : List Call) :
    ∀ (rd : TracerD) (sys2 : Sys), rd.noStream = false → rd.objectMode = false →
    rd.target = 0 → runCalls [rd] 0 calls = .ok sys2 →
    ∃ evs, callEvs calls = .ok evs ∧
      sys2 = [{ rd with frags := rd.frags ++ fragsFor rd.firstPush evs
                        firstPush := rd.firstPush || !evs.isEmpty }] := by
  induction calls with
  | nil =>
      intro rd sys2 h1 h2 h3 h4
      refine ⟨[], rfl, ?_⟩
      simp only [runCalls] at h4
      cases h4
      simp [fragsFor]
  | cons call rest ih =>
      intro rd sys2 h1 h2 h3 h4
      simp only [runCalls] at h4
      cases hb : buildEv call.ph call.arg call.c with
      | error e => simp [emit, hb] at h4
      | ok ev =>
          have hemit : emit [rd] 0 call.ph call.arg call.c = .ok [pushStringUpd rd ev] := by
            simp [emit, hb, h1, h3, pushTo, h2, updTracer]
          rw [hemit] at h4
          obtain ⟨evs, hevs, hsys⟩ := ih (pushStringUpd rd ev) sys2
            (by rw [pushStringUpd_noStream]; exact h1)
            (by rw [pushStringUpd_objectMode]; exact h2)
            (by rw [pushStringUpd_target]; exact h3) h4
          refine ⟨ev :: evs, by simp [callEvs, hb, hevs], ?_⟩
          rw [hsys]
          by_cases hfp : rd.firstPush <;>
            simp [pushStringUpd, hfp, fragsFor, List.append_assoc]

theorem concatAll_fragsFor_true (evs : List Fields) :
    concatAll (fragsFor true evs) =
      concatAll (evs.map (fun e => ",\n" ++ stringify (.obj e))) := by
  induction evs with
  | nil => rfl
  | cons e rest ih => simp [fragsFor, concatAll, ih]

theorem concatAll_fragsFor (evs : List Fields) :
    concatAll (fragsFor false evs) = streamConcat evs := by
  cases evs with
  | nil => rfl
  | cons e rest =>
      simp [fragsFor, concatAll, streamConcat, concatAll_fragsFor_true,
        String.append_assoc]

/-- C1 amended: in text streamed mode, for every sequence of phase-method
calls on a root Tracer followed by the terminal flush (a no-op in this
mode), the fragments pushed to the sink are an opening bracket before the
first serialized event and a comma-newline prefix before each further
serialized event, in construction order, and the closing bracket is never
pushed: the concatenation is the JSON array of the constructed events
with the final closing bracket missing, and nothing is buffered. -/
theorem claim1_stream_fragments (calls : List Call) (sys2 : Sys)
    (h : runCalls (newRoot [] none false false) 0 calls = .ok sys2) :
    ∃ evs rd, callEvs calls = .ok evs ∧ sys2.get? 0 = some rd ∧
      rd.frags = fragsFor false evs ∧
      concatAll rd.frags = streamConcat evs ∧
      rd.events = [] ∧
      flushT sys2 0 = sys2 := by
  obtain ⟨evs, hevs, hsys⟩ := runCalls_single_stream calls
    ⟨mkFields none none, false, false, none, 0, false, [], [], []⟩
    sys2 rfl rfl rfl h
  subst hsys
  exact ⟨evs, _, hevs, rfl, by simp, by simpa using concatAll_fragsFor evs,
    rfl, by simp [flushT]⟩

/-- C1 amended witness: one concrete call on a streaming text root. -/
theorem claim1_stream_fragments_witness :
    ∃ evs rd,
      callEvs [⟨"B", FArg.noArg, ⟨0, 1, 1⟩⟩] = .ok evs ∧
      ([(⟨[("cat", JVal.str "default"), ("args", JVal.obj [])], false, false,
          none, 0, true, [],
          ["[", "\x7b\"ts\":0,\"pid\":1,\"tid\":1,\"ph\":\"B\"\x7d"], []⟩ :
          TracerD)] : Sys).get? 0 = some rd ∧
      rd.frags = fragsFor false evs ∧
      concatAll rd.frags = streamConcat evs ∧
      rd.events = [] ∧
      flushT [(⟨[("cat", JVal.str "default"), ("args", JVal.obj [])], false, false,
          none, 0, true, [],
          ["[", "\x7b\"ts\":0,\"pid\":1,\"tid\":1,\"ph\":\"B\"\x7d"], []⟩ :
          TracerD)] 0 =
        [(⟨[("cat", JVal.str "default"), ("args", JVal.obj [])], false, false,
          none, 0, true, [],
          ["[", "\x7b\"ts\":0,\"pid\":1,\"tid\":1,\"ph\":\"B\"\x7d"], []⟩ :
          TracerD)] :=
  claim1_stream_fragments [⟨"B", FArg.noArg, ⟨0, 1, 1⟩⟩] _ rfl

theorem pushFold_single (evs : List Fields) :
    ∀ rd : TracerD, rd.objectMode = false →
    evs.foldl (fun s ev => pushTo s 0 ev) [rd] =
      [{ rd with frags := rd.frags ++ fragsFor rd.firstPush evs
                 firstPush := rd.firstPush || !evs.isEmpty }] := by
  induction evs with
  | nil => intro rd h; simp [fragsFor]
  | cons e rest ih =>
      intro rd h
      simp only [List.foldl]
      have h1 : pushTo [rd] 0 e = [pushStringUpd rd e] := by
        simp [pushTo, h, updTracer]
      rw [h1, ih (pushStringUpd rd e) (by rw [pushStringUpd_objectMode]; exact h)]
      by_cases hfp : rd.firstPush <;>
        simp [pushStringUpd, hfp, fragsFor, List.append_assoc]

/-- C5 amended: on a buffered (noStream) text-mode root Tracer, flush
pushes every buffered event through the streaming push path and then one
closing-bracket fragment; it neither clears the buffer nor records
closure, so a second flush pushes all buffered events and a second
closing bracket: the terminal frame is emitted once per call, not once
overall, and with zero prior events the only fragment pushed is a lone
closing bracket, which is not a valid empty-array encoding. -/
theorem claim5_flush_not_idempotent (rd : TracerD) (hns : rd.noStream = true)
    (hom : rd.objectMode = false) (ht : rd.target = 0) :
    flushT [rd] 0 =
      [{ rd with frags := rd.frags ++ fragsFor rd.firstPush rd.events ++ ["]"]
                 firstPush := rd.firstPush || !rd.events.isEmpty }] ∧
    flushT (flushT [rd] 0) 0 =
      [{ rd with frags := (rd.frags ++ fragsFor rd.firstPush rd.events ++ ["]"]) ++
                   fragsFor (rd.firstPush || !rd.events.isEmpty) rd.events ++ ["]"]
                 firstPush := (rd.firstPush || !rd.events.isEmpty) ||
                   !rd.events.isEmpty }] := by
  have hflush : ∀ rd2 : TracerD, rd2.noStream = true → rd2.objectMode = false →
      rd2.target = 0 →
      flushT [rd2] 0 =
        [{ rd2 with frags := rd2.frags ++ fragsFor rd2.firstPush rd2.events ++ ["]"]
                    firstPush := rd2.firstPush || !rd2.events.isEmpty }] := by
    intro rd2 h1 h2 h3
    simp only [flushT, List.get?]
    rw [if_pos h1]
    simp only [h3]
    rw [pushFold_single rd2.events rd2 h2]
    rw [if_neg (by simp [h2])]
    simp [updTracer]
    exact h3
  refine ⟨hflush rd hns hom ht, ?_⟩
  rw [hflush rd hns hom ht]
  exact hflush
    { rd with frags := rd.frags ++ fragsFor rd.firstPush rd.events ++ ["]"]
              firstPush := rd.firstPush || !rd.events.isEmpty }
    hns hom ht

/-- C5 amended witness: a buffered root holding one event. -/
theorem claim5_flush_not_idempotent_witness :
    ((flushT [(⟨[], true, false, none, 0, false, [[("ts", JVal.num 0)]], [], []⟩ :
        TracerD)] 0).get? 0).map TracerD.frags =
      some ["[", "\x7b\"ts\":0\x7d", "]"] := by
  rw [(claim5_flush_not_idempotent
    ⟨[], true, false, none, 0, false, [[("ts", JVal.num 0)]], [], []⟩ rfl rfl rfl).1]
  rfl

theorem pushTo_events_unchanged (sys : Sys) (r : Nat) (ev : Fields) (j : Nat) :
    ((pushTo sys r ev).get? j).map TracerD.events =
      (sys.get? j).map TracerD.events := by
  have hgen : ∀ (g : TracerD → TracerD), (∀ d, (g d).events = d.events) →
      ((updTracer sys r g).get? j).map TracerD.events =
        (sys.get? j).map TracerD.events := by
    intro g hg
    rw [get?_updTracer]
    by_cases hj : j = r
    · rw [if_pos hj]; cases sys.get? j <;> simp [hg]
    · rw [if_neg hj]
  cases h : sys.get? r with
  | none => simp only [pushTo, h]
  | some rd =>
      simp only [pushTo, h]
      by_cases hom : rd.objectMode = true
      · rw [if_pos hom]
        exact hgen _ (fun d => rfl)
      · rw [if_neg hom]
        exact hgen _ (fun d => by
          by_cases hfp : d.firstPush <;> simp [pushStringUpd, hfp])

/-- C10: a Tracer created via child never buffers: its noStream flag is
false (child passes neither noStream nor objectMode), so every event
emitted through any tracer whose noStream flag is false, in particular
every child, is delivered immediately through the bound push of its
target, and no events buffer anywhere in the system changes; the output a
later flush of the buffered root produces is therefore determined by the
root's own buffer alone and never contains the child's events. -/
theorem claim10_child_streams_immediately :
    (∀ (sys : Sys) (p : Nat) (pd : TracerD) (f : Fields), sys.get? p = some pd →
       (childOf sys p f).get? sys.length =
         some ⟨mkFields (some pd.fields) (some f), false, false, some p,
               pd.target, false, [], [], []⟩) ∧
    (∀ (sys : Sys) (t : Nat) (td : TracerD) (ph : String) (arg : FArg) (c : Clk)
       (sys2 : Sys), sys.get? t = some td → td.noStream = false →
       emit sys t ph arg c = .ok sys2 →
       (∃ ev, buildEv ph arg c = .ok ev ∧ sys2 = pushTo sys td.target ev) ∧
       ∀ j, (sys2.get? j).map TracerD.events = (sys.get? j).map TracerD.events) := by
  constructor
  · intro sys p pd f hget
    simp only [childOf, hget]
    exact List.get?_concat_length _ _
  · intro sys t td ph arg c sys2 hget hns hemit
    simp only [emit, hget] at hemit
    cases hb : buildEv ph arg c with
    | error e => rw [hb] at hemit; cases hemit
    | ok ev =>
        rw [hb] at hemit
        simp only [hns, Bool.false_eq_true, if_false] at hemit
        cases hemit
        exact ⟨⟨ev, rfl, rfl⟩, fun j => pushTo_events_unchanged sys td.target ev j⟩

/-- C10 witness: a buffered root with a child derived from it; the child
emit is delivered to the root sink and buffers nothing. -/
theorem claim10_child_streams_immediately_witness :
    ((newRoot [] none false true).get? 0 =
       some ⟨[("cat", JVal.str "default"), ("args", JVal.obj [])], true, false,
             none, 0, false, [], [], []⟩ ∧
     (childOf (newRoot [] none false true) 0 []).get? 1 =
       some ⟨mkFields (some (⟨[("cat", JVal.str "default"), ("args", JVal.obj [])],
               true, false, none, 0, false, [], [], []⟩ : TracerD).fields) (some []),
             false, false, some 0, 0, false, [], [], []⟩) ∧
    ((∃ ev, buildEv "I" FArg.noArg ⟨0, 1, 1⟩ = .ok ev ∧
        updTracer (childOf (newRoot [] none false true) 0 []) 0
          (fun td => pushStringUpd td
            [("ts", .num 0), ("pid", .num 1), ("tid", .num 1), ("ph", .str "I")]) =
          pushTo (childOf (newRoot [] none false true) 0 []) 0 ev) ∧
     ∀ j, ((updTracer (childOf (newRoot [] none false true) 0 []) 0
          (fun td => pushStringUpd td
            [("ts", .num 0), ("pid", .num 1), ("tid", .num 1), ("ph", .str "I")])).get?
            j).map TracerD.events =
       ((childOf (newRoot [] none false true) 0 []).get? j).map TracerD.events) :=
  ⟨⟨rfl, claim10_child_streams_immediately.1 (newRoot [] none false true) 0 _ [] rfl⟩,
   claim10_child_streams_immediately.2 (childOf (newRoot [] none false true) 0 [])
     1 _ "I" FArg.noArg ⟨0, 1, 1⟩ _ rfl rfl rfl⟩

theorem pushStringUpd_parent (td : TracerD) (ev : Fields) :
    (pushStringUpd td ev).parent = td.parent := by
  by_cases h : td.firstPush <;> simp [pushStringUpd, h]

theorem get?_some_lt {sys : Sys} {t : Nat} {td : TracerD}
    (h : sys.get? t = some td) : t < sys.length := by
  by_contra hc
  rw [List.get?_eq_none.mpr (by omega)] at h
  cases h

theorem sysInv_updTracer (sys : Sys) (i : Nat) (f : TracerD → TracerD)
    (hf : ∀ d, (f d).parent = d.parent ∧ (f d).target = d.target)
    (h : SysInv sys) : SysInv (updTracer sys i f) := by
  have href : ∀ (p : Nat) (pd : TracerD), sys.get? p = some pd →
      ∃ pd2, (updTracer sys i f).get? p = some pd2 ∧ pd2.target = pd.target := by
    intro p pd hpd
    rw [get?_updTracer]
    by_cases hpi : p = i
    · exact ⟨f pd, by rw [if_pos hpi, hpd]; rfl, (hf pd).2⟩
    · exact ⟨pd, by rw [if_neg hpi]; exact hpd, rfl⟩
  intro t td hget
  rw [get?_updTracer] at hget
  by_cases hti : t = i
  · rw [if_pos hti] at hget
    cases hx : sys.get? t with
    | none => rw [hx] at hget; cases hget
    | some d0 =>
        rw [hx] at hget
        cases hget
        have h0 := h t d0 hx
        rw [(hf d0).1, (hf d0).2]
        cases hp : d0.parent with
        | none => rw [hp] at h0; exact h0
        | some p =>
            rw [hp] at h0
            obtain ⟨hlt, pd, hpd, htg⟩ := h0
            obtain ⟨pd2, hpd2, htg2⟩ := href p pd hpd
            exact ⟨hlt, pd2, hpd2, by rw [htg2]; exact htg⟩
  · rw [if_neg hti] at hget
    have h0 := h t td hget
    cases hp : td.parent with
    | none => rw [hp] at h0; exact h0
    | some p =>
        rw [hp] at h0
        obtain ⟨hlt, pd, hpd, htg⟩ := h0
        obtain ⟨pd2, hpd2, htg2⟩ := href p pd hpd
        exact ⟨hlt, pd2, hpd2, by rw [htg2]; exact htg⟩

theorem sysInv_pushTo (sys : Sys) (r : Nat) (ev : Fields) (h : SysInv sys) :
    SysInv (pushTo sys r ev) := by
  cases h0 : sys.get? r with
  | none => simp only [pushTo, h0]; exact h
  | some rd =>
      simp only [pushTo, h0]
      by_cases hom : rd.objectMode = true
      · rw [if_pos hom]
        exact sysInv_updTracer sys r _ (fun d => ⟨rfl, rfl⟩) h
      · rw [if_neg hom]
        exact sysInv_updTracer sys r _
          (fun d => ⟨pushStringUpd_parent d ev, pushStringUpd_target d ev⟩) h

theorem sysInv_newRoot (sys : Sys) (f : Option Fields) (om ns : Bool)
    (h : SysInv sys) : SysInv (newRoot sys f om ns) := by
  intro t td hget
  simp only [newRoot] at hget ⊢
  by_cases hlt : t < sys.length
  · rw [List.get?_append hlt] at hget
    have h0 := h t td hget
    cases hp : td.parent with
    | none => rw [hp] at h0; exact h0
    | some p =>
        rw [hp] at h0
        obtain ⟨hlt2, pd, hpd, htg⟩ := h0
        exact ⟨hlt2, pd, by rw [List.get?_append (by omega)]; exact hpd, htg⟩
  · have hlen := get?_some_lt hget
    simp only [List.length_append, List.length_cons, List.length_nil] at hlen
    have ht : t = sys.length := by omega
    subst ht
    rw [List.get?_concat_length] at hget
    cases hget
    exact rfl

theorem sysInv_childOf (sys : Sys) (p : Nat) (f : Fields) (h : SysInv sys) :
    SysInv (childOf sys p f) := by
  cases hp0 : sys.get? p with
  | none => simp only [childOf, hp0]; exact h
  | some pd =>
      simp only [childOf, hp0]
      intro t td hget
      by_cases hlt : t < sys.length
      · rw [List.get?_append hlt] at hget
        have h0 := h t td hget
        cases hp : td.parent with
        | none => rw [hp] at h0; exact h0
        | some q =>
            rw [hp] at h0
            obtain ⟨hlt2, qd, hqd, htg⟩ := h0
            exact ⟨hlt2, qd, by rw [List.get?_append (by omega)]; exact hqd, htg⟩
      · have hlen := get?_some_lt hget
        simp only [List.length_append, List.length_cons, List.length_nil] at hlen
        have ht : t = sys.length := by omega
        subst ht
        rw [List.get?_concat_length] at hget
        cases hget
        have hplt : p < sys.length := get?_some_lt hp0
        exact ⟨hplt, pd, by rw [List.get?_append hplt]; exact hp0, rfl⟩

theorem sysInv_emit (sys : Sys) (t : Nat) (ph : String) (arg : FArg) (c : Clk)
    (sys2 : Sys) (he : emit sys t ph arg c = .ok sys2) (h : SysInv sys) :
    SysInv sys2 := by
  cases hget : sys.get? t with
  | none => simp only [emit, hget] at he; cases he
  | some td =>
      simp only [emit, hget] at he
      cases hb : buildEv ph arg c with
      | error e => rw [hb] at he; cases he
      | ok ev =>
          rw [hb] at he
          by_cases hns : td.noStream = true
          · simp only [hns, reduceIte] at he
            cases he
            exact sysInv_updTracer sys t _ (fun d => ⟨rfl, rfl⟩) h
          · simp only [hns, Bool.false_eq_true, if_false] at he
            cases he
            exact sysInv_pushTo sys td.target ev h

theorem sysInv_flushT (sys : Sys) (t : Nat) (h : SysInv sys) :
    SysInv (flushT sys t) := by
  cases hget : sys.get? t with
  | none => simp only [flushT, hget]; exact h
  | some td =>
      simp only [flushT, hget]
      by_cases hns : td.noStream = true
      · rw [if_pos hns]
        have hfold : ∀ (evs : List Fields) (s : Sys), SysInv s →
            SysInv (evs.foldl (fun s2 ev => pushTo s2 td.target ev) s) := by
          intro evs
          induction evs with
          | nil => intro s hs; exact hs
          | cons e rest ih => intro s hs; exact ih _ (sysInv_pushTo _ _ _ hs)
        by_cases hom : td.objectMode = true
        · rw [if_pos hom]
          exact hfold _ _ h
        · rw [if_neg hom]
          exact sysInv_updTracer _ _ _ (fun d => ⟨rfl, rfl⟩) (hfold _ _ h)
      · rw [if_neg hns]
        exact h

theorem sysInv_of_reachable {sys : Sys} (h : Reachable sys) : SysInv sys := by
  induction h with
  | nil => intro t td hget; cases hget
  | root sys f om ns _ ih => exact sysInv_newRoot sys f om ns ih
  | child sys p f _ ih => exact sysInv_childOf sys p f ih
  | emitStep sys t ph arg c sys2 _ he ih => exact sysInv_emit sys t ph arg c sys2 he ih
  | flushStep sys t _ ih => exact sysInv_flushT sys t ih

theorem rootAncSpec (sys : Sys) (hinv : SysInv sys) :
    ∀ (t : Nat) (td : TracerD), sys.get? t = some td → ∀ fu, t < fu →
      rootAncF fu sys t = td.target ∧
      ∃ rd, sys.get? td.target = some rd ∧ rd.parent = none ∧
        rd.target = td.target := by
  intro t
  induction t using Nat.strong_induction_on with
  | _ t ih =>
      intro td hget fu hfu
      cases fu with
      | zero => omega
      | succ fu2 =>
          have h0 := hinv t td hget
          simp only [rootAncF, hget]
          cases hp : td.parent with
          | none =>
              rw [hp] at h0
              refine ⟨h0.symm, td, ?_, hp, rfl⟩
              rw [h0]
              exact hget
          | some p =>
              rw [hp] at h0
              obtain ⟨hlt, pd, hpd, htg⟩ := h0
              obtain ⟨h1, rd, h2, h3, h4⟩ := ih p hlt pd hpd fu2 (by omega)
              rw [htg]
              exact ⟨h1, rd, h2, h3, h4⟩

/-- C9: in every system reachable through the public operations, the bound
push of every tracer targets its root ancestor along the parent chain (the
target is a fixed point: a tracer with no parent), and a non-buffering
emit from any tracer, in particular from a grandchild, delivers the built
event to that root ancestor's sink and framing state. -/
theorem claim9_delivery_reaches_root (sys : Sys) (h : Reachable sys) (t : Nat)
    (td : TracerD) (hget : sys.get? t = some td) :
    rootAnc sys t = td.target ∧
    (∃ rd, sys.get? td.target = some rd ∧ rd.parent = none ∧
       rd.target = td.target) ∧
    (td.noStream = false → ∀ (ph : String) (arg : FArg) (c : Clk) (ev : Fields),
       buildEv ph arg c = .ok ev →
       emit sys t ph arg c = .ok (pushTo sys (rootAnc sys t) ev)) := by
  have hinv := sysInv_of_reachable h
  have hlt := get?_some_lt hget
  obtain ⟨hra, hroot⟩ := rootAncSpec sys hinv t td hget sys.length hlt
  refine ⟨hra, hroot, ?_⟩
  intro hns ph arg c ev hb
  simp only [emit, hget, hb]
  rw [if_neg (by simp [hns])]
  rw [rootAnc, hra]

/-- C9 witness: a grandchild of a streaming root; its emit goes through
the root sink at index 0. -/
theorem claim9_delivery_reaches_root_witness :
    rootAnc (childOf (childOf (newRoot [] none false false) 0 []) 1 []) 2 = 0 ∧
    emit (childOf (childOf (newRoot [] none false false) 0 []) 1 []) 2 "B"
        FArg.noArg ⟨0, 1, 1⟩ =
      .ok (pushTo (childOf (childOf (newRoot [] none false false) 0 []) 1 [])
        (rootAnc (childOf (childOf (newRoot [] none false false) 0 []) 1 []) 2)
        [("ts", .num 0), ("pid", .num 1), ("tid", .num 1), ("ph", .str "B")]) := by
  have hr : Reachable (childOf (childOf (newRoot [] none false false) 0 []) 1 []) :=
    Reachable.child _ 1 [] (Reachable.child _ 0 []
      (Reachable.root [] none false false Reachable.nil))
  obtain ⟨h1, _, h3⟩ := claim9_delivery_reaches_root
    (childOf (childOf (newRoot [] none false false) 0 []) 1 []) hr 2 _ rfl
  exact ⟨h1, h3 rfl "B" FArg.noArg ⟨0, 1, 1⟩ _ rfl⟩

/-- C6: the constructor validation fails fast with a configuration error
(the constructor returns an error and no tracer state) on a non-object
opts value, a non-object parent, a non-object fields, or a non-boolean
objectMode, with the error messages of the source, and accepts every
well-typed options object (no-argument construction included).  As in
JavaScript, typeof null is object: a null parent or fields or objectMode
is skipped by the loose null check of the source. -/
theorem claim6_ctor_validation :
    (tracerCtorChecks none = .ok ()) ∧
    (∀ v : JVal, typeof v ≠ "object" →
       tracerCtorChecks (some v) =
         .error "Invalid options passed (must be an object)") ∧
    (∀ (kvs : Fields) (pv : JVal), objGet kvs "parent" = some pv →
       pv ≠ JVal.null → typeof pv ≠ "object" →
       tracerCtorChecks (some (.obj kvs)) =
         .error "Invalid option (parent) passed (must be an object)") ∧
    (∀ (kvs : Fields) (fv : JVal), objGet kvs "parent" = none →
       objGet kvs "fields" = some fv → typeof fv ≠ "object" →
       tracerCtorChecks (some (.obj kvs)) =
         .error "Invalid option (fields) passed (must be an object)") ∧
    (∀ (kvs : Fields) (mv : JVal), objGet kvs "parent" = none →
       objGet kvs "fields" = none → objGet kvs "objectMode" = some mv →
       mv ≠ JVal.null → (∀ b, mv ≠ JVal.bool b) →
       tracerCtorChecks (some (.obj kvs)) =
         .error "Invalid option (objectsMode) passed (must be a boolean)") ∧
    (∀ kvs : Fields,
       (match objGet kvs "parent" with
        | none => True
        | some .null => True
        | some v => typeof v = "object") →
       (match objGet kvs "fields" with
        | none => True
        | some .null => True
        | some v => typeof v = "object") →
       (match objGet kvs "objectMode" with
        | none => True
        | some .null => True
        | some (.bool _) => True
        | some _ => False) →
       tracerCtorChecks (some (.obj kvs)) = .ok ()) := by
  refine ⟨rfl, ?_, ?_, ?_, ?_, ?_⟩
  · intro v hv
    cases v with
    | null => exact absurd rfl hv
    | arr xs => exact absurd rfl hv
    | obj kvs => exact absurd rfl hv
    | bool b => rfl
    | num n => rfl
    | str s => rfl
  · intro kvs pv hget hnull hto
    simp only [tracerCtorChecks, Option.getD, propGet, typeof, bne_self_eq_false,
      Bool.false_eq_true, if_false]
    rw [hget]
    cases pv with
    | null => exact absurd rfl hnull
    | arr xs => exact absurd rfl hto
    | obj kvs2 => exact absurd rfl hto
    | bool b => rfl
    | num n => rfl
    | str s => rfl
  · intro kvs fv hpar hget hto
    simp only [tracerCtorChecks, Option.getD, propGet, typeof, bne_self_eq_false,
      Bool.false_eq_true, if_false]
    rw [hpar, hget]
    cases fv with
    | null => exact absurd rfl hto
    | arr xs => exact absurd rfl hto
    | obj kvs2 => exact absurd rfl hto
    | bool b => rfl
    | num n => rfl
    | str s => rfl
  · intro kvs mv hpar hfld hget hnull hbool
    simp only [tracerCtorChecks, Option.getD, propGet, typeof, bne_self_eq_false,
      Bool.false_eq_true, if_false]
    rw [hpar, hfld, hget]
    cases mv with
    | null => exact absurd rfl hnull
    | bool b => exact absurd rfl (hbool b)
    | arr xs => rfl
    | obj kvs2 => rfl
    | num n => rfl
    | str s => rfl
  · intro kvs h1 h2 h3
    have b1 : (match objGet kvs "parent" with
        | none => false
        | some .null => false
        | some pv => typeof pv != "object") = false := by
      cases hp : objGet kvs "parent" with
      | none => rfl
      | some pv => rw [hp] at h1; cases pv <;> simp_all [typeof]
    have b2 : (match objGet kvs "fields" with
        | none => false
        | some .null => false
        | some v => typeof v != "object") = false := by
      cases hf : objGet kvs "fields" with
      | none => rfl
      | some fv => rw [hf] at h2; cases fv <;> simp_all [typeof]
    have b3 : (match objGet kvs "objectMode" with
        | none => false
        | some .null => false
        | some (.bool _) => false
        | some _ => true) = false := by
      cases hm : objGet kvs "objectMode" with
      | none => rfl
      | some mv => rw [hm] at h3; cases mv <;> simp_all
    simp only [tracerCtorChecks, Option.getD, propGet, bne_self_eq_false, b1, b2,
      b3, Bool.false_eq_true, if_false]
    rfl

/-- C6 witness: concrete bad and good option objects. -/
theorem claim6_ctor_validation_witness :
    tracerCtorChecks (some (.str "nope")) =
      .error "Invalid options passed (must be an object)" ∧
    tracerCtorChecks (some (.obj [("parent", .num 3)])) =
      .error "Invalid option (parent) passed (must be an object)" ∧
    tracerCtorChecks (some (.obj [("fields", .str "bad")])) =
      .error "Invalid option (fields) passed (must be an object)" ∧
    tracerCtorChecks (some (.obj [("objectMode", .num 1)])) =
      .error "Invalid option (objectsMode) passed (must be a boolean)" ∧
    tracerCtorChecks (some (.obj [("fields", .obj [("cat", .str "c")]),
        ("objectMode", .bool true), ("noStream", .bool true)])) = .ok () :=
  ⟨claim6_ctor_validation.2.1 (.str "nope") (by simp [typeof]),
   claim6_ctor_validation.2.2.1 [("parent", .num 3)] (.num 3) rfl
     (by simp) (by simp [typeof]),
   claim6_ctor_validation.2.2.2.1 [("fields", .str "bad")] (.str "bad") rfl rfl
     (by simp [typeof]),
   claim6_ctor_validation.2.2.2.2.1 [("objectMode", .num 1)] (.num 1) rfl rfl rfl
     (by simp) (by simp),
   claim6_ctor_validation.2.2.2.2.2 [("fields", .obj [("cat", .str "c")]),
     ("objectMode", .bool true), ("noStream", .bool true)]
     (by simp [objGet]) (by simp [objGet, typeof]) (by simp [objGet])⟩

end TraceEvent
